import Mathlib

/-!
Verification development for the KryptonAnalyzer TPC pad-gain calibration
program (src/KryptonAnalyzer.cc, src/KryptonAnalyzer.h).

The program is shallowly embedded: machine doubles are modelled by the type
`DVal` (an exact rational together with the three IEEE special values `+inf`,
`-inf` and `NaN`, with the IEEE comparison convention that every comparison
against NaN is false); histograms are modelled as bin-content lists with the
ROOT indexing convention (index 0 is the underflow bin, real bins are
1..nbins, index nbins+1 is the overflow bin); the numerical curve fits
performed by ROOT's TF1 machinery are modelled by an oracle parameter that
receives exactly the fit range and fit parameters the source passes to ROOT.
Rounding of floating-point arithmetic is not modelled: rational arithmetic is
exact.  All definitions are transcribed from the source; definitions whose
name contains `Spec` transcribe the specification's words instead and exist
only to be compared with the source-derived ones.
-/

namespace KrAna

/-- A machine double: an exact rational (`fin`), one of the two infinities,
or NaN.  Signed zero is not distinguished. -/
inductive DVal where
  | fin (q : ℚ)
  | pinf
  | ninf
  | nan
deriving DecidableEq

/-- `isnan`. -/
def DVal.isNanB : DVal → Bool
  | .nan => true
  | _ => false

/-- `isinf`. -/
def DVal.isInfB : DVal → Bool
  | .pinf => true
  | .ninf => true
  | _ => false

/-- IEEE `<` on doubles: any comparison involving NaN is false. -/
def DVal.lt : DVal → DVal → Bool
  | .fin a, .fin b => a < b
  | .fin _, .pinf => true
  | .ninf, .fin _ => true
  | .ninf, .pinf => true
  | _, _ => false

/-- IEEE multiplication on doubles (modulo rounding; no signed zero). -/
def DVal.mul : DVal → DVal → DVal
  | .nan, _ => .nan
  | _, .nan => .nan
  | .fin a, .fin b => .fin (a * b)
  | .fin a, .pinf => if a = 0 then .nan else if 0 < a then .pinf else .ninf
  | .fin a, .ninf => if a = 0 then .nan else if 0 < a then .ninf else .pinf
  | .pinf, .fin b => if b = 0 then .nan else if 0 < b then .pinf else .ninf
  | .ninf, .fin b => if b = 0 then .nan else if 0 < b then .ninf else .pinf
  | .pinf, .pinf => .pinf
  | .pinf, .ninf => .ninf
  | .ninf, .pinf => .ninf
  | .ninf, .ninf => .pinf

/-- IEEE division on doubles (modulo rounding; zero is treated as +0, so
`a/0 = +inf` for positive `a`, `-inf` for negative `a`, NaN for `0/0`). -/
def DVal.div : DVal → DVal → DVal
  | .nan, _ => .nan
  | _, .nan => .nan
  | .fin a, .fin b =>
      if b = 0 then (if a = 0 then .nan else if 0 < a then .pinf else .ninf)
      else .fin (a / b)
  | .fin _, .pinf => .fin 0
  | .fin _, .ninf => .fin 0
  | .pinf, .fin b => if b < 0 then .ninf else .pinf
  | .ninf, .fin b => if b < 0 then .pinf else .ninf
  | .pinf, _ => .nan
  | .ninf, _ => .nan

/-- The gain formula of the emission loop:
`gain = (updateGains) ? padrow.GetPadGain(padId)*sectorADC/padADC : sectorADC/padADC`
(`*` and `/` associate left, so the update case is `(prior * sectorADC) / padADC`). -/
def computeGain (updateGains : Bool) (priorGain : ℚ) (sectorADC padADC : DVal) : DVal :=
  if updateGains then DVal.div (DVal.mul (.fin priorGain) sectorADC) padADC
  else DVal.div sectorADC padADC

/-- The audit-record sanitization: `fGain = (isnan(gain) || isinf(gain)) ? 0 : gain`. -/
def sanitizedGain (g : DVal) : DVal :=
  if g.isNanB || g.isInfB then .fin 0 else g

/-- The acceptability check of the emission loop:
`gain > fMinAcceptableGain && gain < fMaxAcceptableGain`, evaluated on the raw
(uncoerced) gain with IEEE comparison semantics. -/
def acceptableGain (minG maxG : ℚ) (g : DVal) : Bool :=
  DVal.lt (.fin minG) g && DVal.lt g (.fin maxG)

/-- The value written to the gain table for one pad: the raw gain when
acceptable, the sentinel -1 otherwise. -/
def tableValue (minG maxG : ℚ) (g : DVal) : DVal :=
  if acceptableGain minG maxG g then g else .fin (-1)

/-- The pair (audit-record gain, table value) produced for one pad of a
calibrated TPC: the audit record always receives the sanitized gain, the
table receives the raw gain when acceptable and -1 otherwise. -/
def padResult (minG maxG : ℚ) (g : DVal) : DVal × DVal :=
  (sanitizedGain g, tableValue minG maxG g)

/-- Spec-words version for claim C3: the NaN/infinity coercion is applied
before the acceptability check, so the table value is computed from the
sanitized gain. -/
def tableValueCoerceFirstSpec (minG maxG : ℚ) (g : DVal) : DVal :=
  tableValue minG maxG (sanitizedGain g)

/-- One incoming cluster record of a sector TTree: the branch variables
`fCharge, fMaxADC, fTimeSlice, fNPads, fNTimeSlices, fPadrow, fPad`, together
with the (tpcId, sectorId) identifying the tree the record came from. -/
structure ClusterEvent where
  tpcId : ℕ
  sectorId : ℕ
  charge : ℚ
  maxADC : ℕ
  timeSlice : ℕ
  nPads : ℕ
  nTimeSlices : ℕ
  padrow : ℕ
  pad : ℕ
deriving DecidableEq

/-- The configuration surface of the accumulation pass: the calibration TPC
list, the cluster quality-cut bounds, and the update-mode prior-gain lookup
(`det::TPCPadrow::GetPadGain`). -/
structure ACfg where
  tpcList : List ℕ
  minPads : ℕ
  maxPads : ℕ
  minTimeSlices : ℕ
  maxTimeSlices : ℕ
  minTimeSliceNumber : ℕ
  chargeCut : ℚ
  maxADCCut : ℚ
  updateGains : Bool
  prior : ℕ → ℕ → ℕ → ℕ → ℚ

/-- The cluster cuts of the event loop, in source order: an event is kept iff
none of the seven `continue` guards fires:
`fCharge == 0`, `nPads < fMinPads`, `nPads > fMaxPads`,
`nTimeSlices < fMinTimeSlices`, `nTimeSlices > fMaxTimeSlices`,
`fTimeSlice < fMinTimeSliceNumber`, and
`fCharge < fChargeCut && fMaxADC < fMaxADCCut`. -/
def passesCuts (c : ACfg) (e : ClusterEvent) : Bool :=
  !(decide (e.charge = 0)) &&
  !(decide (e.nPads < c.minPads)) &&
  !(decide (e.nPads > c.maxPads)) &&
  !(decide (e.nTimeSlices < c.minTimeSlices)) &&
  !(decide (e.nTimeSlices > c.maxTimeSlices)) &&
  !(decide (e.timeSlice < c.minTimeSliceNumber)) &&
  !(decide (e.charge < c.chargeCut) && decide ((e.maxADC : ℚ) < c.maxADCCut))

/-- The mutable histogram state of the accumulation pass.  The per-(tpc,
sector) "no-cuts"/"all-cuts" charge spectra (`sectorSpectraHistograms
.first/.second`) always exist for a tree being processed; the per-pad charge
histograms (`fSpectraHistograms`) exist only for the pads created from the
geometry, so their lookup is partial — the source indexes the nested
`unordered_map` with `operator[]`, which default-constructs a null `TH1D*`
for an unknown pad and then calls `Fill` through it. -/
structure AccState where
  secNoCuts : ℕ → ℕ → List ℚ
  secAllCuts : ℕ → ℕ → List ℚ
  padHist : ℕ → ℕ → ℕ → ℕ → Option (List ℚ)

/-- Point update of a two-argument histogram map. -/
def upd2 (f : ℕ → ℕ → List ℚ) (a b : ℕ) (g : List ℚ → List ℚ) : ℕ → ℕ → List ℚ :=
  fun x y => if x = a ∧ y = b then g (f x y) else f x y

/-- Point update of a four-argument histogram map. -/
def upd4 (f : ℕ → ℕ → ℕ → ℕ → Option (List ℚ)) (a b c d : ℕ) (v : Option (List ℚ)) :
    ℕ → ℕ → ℕ → ℕ → Option (List ℚ) :=
  fun x y z w => if x = a ∧ y = b ∧ z = c ∧ w = d then v else f x y z w

/-- One iteration of the event loop (lines 370-417 of the source).  A tree
whose TPC is not in `fTPCIdList` is skipped silently before any filling.
Otherwise the sector no-cuts spectrum is always filled with the raw charge;
if the event passes the cuts, the charge is rescaled by the prior gain in
update mode, and the pad histogram and the sector all-cuts spectrum are
filled with it.  Filling the pad histogram of a pad that has no pre-created
histogram dereferences a default-constructed null pointer; that abnormal
termination is the `.error` case. -/
def processEvent (c : ACfg) (st : AccState) (e : ClusterEvent) : Except Unit AccState :=
  if e.tpcId ∈ c.tpcList then
    let st1 : AccState :=
      { st with secNoCuts := upd2 st.secNoCuts e.tpcId e.sectorId (· ++ [e.charge]) }
    if passesCuts c e then
      let ch : ℚ :=
        if c.updateGains then e.charge * c.prior e.tpcId e.sectorId e.padrow e.pad
        else e.charge
      match st1.padHist e.tpcId e.sectorId e.padrow e.pad with
      | none => .error ()
      | some l =>
        .ok { st1 with
              padHist := upd4 st1.padHist e.tpcId e.sectorId e.padrow e.pad (some (l ++ [ch])),
              secAllCuts := upd2 st1.secAllCuts e.tpcId e.sectorId (· ++ [ch]) }
    else .ok st1
  else .ok st

/-- Spec-words version for claim C1: "for every incoming cluster event, the
event's pad no-cuts histogram is always filled with the event's charge" —
read on the one per-pad histogram the program has: every successfully
processed event grows its pad's histogram by one entry. -/
def padNoCutsAlwaysFilledSpec : Prop :=
  ∀ (c : ACfg) (st : AccState) (e : ClusterEvent) (st' : AccState),
    processEvent c st e = .ok st' →
    ∀ l, st.padHist e.tpcId e.sectorId e.padrow e.pad = some l →
    ∃ l', st'.padHist e.tpcId e.sectorId e.padrow e.pad = some l' ∧
          l'.length = l.length + 1

/-- Spec-words version for claim C8: "an event whose (tpc, sector, padrow,
pad) reference does not correspond to a known geometry entry is dropped with
a warning and continues; it is never fatal and leaves all pad histograms
unchanged". -/
def unknownGeometryDroppedSpec : Prop :=
  ∀ (c : ACfg) (st : AccState) (e : ClusterEvent),
    st.padHist e.tpcId e.sectorId e.padrow e.pad = none →
    ∃ st', processEvent c st e = .ok st' ∧ st'.padHist = st.padHist

/-- Modelled from the spec: the per-sector averager
(`modutils::DEDXTools::SectorAveragers`, not part of this repository's
sources) keeps a running sum and count of the accepted pad-peak values and
returns `sum/count`; with zero contributing pads the average is the
undefined double `0/0 = NaN` (spec sections 4.3 and 9). -/
def sectorAverage (values : List ℚ) : DVal :=
  DVal.div (.fin values.sum) (.fin (values.length : ℚ))

/-- A ROOT `TH1D` as the peak-location pass sees it: `nbins` real bins on
`[xmin, xmax]`, a content array indexed 0..nbins+1 (index 0 is the underflow
bin, index nbins+1 the overflow bin), and the fill-count `GetEntries()`. -/
structure Hist where
  nbins : ℕ
  xmin : ℚ
  xmax : ℚ
  content : List ℚ
  entries : ℕ
deriving DecidableEq

/-- Bin width of the uniform axis. -/
def Hist.binWidth (h : Hist) : ℚ := (h.xmax - h.xmin) / (h.nbins : ℚ)

/-- `TAxis::GetBinCenter(i) = xmin + (i - 1/2) * width` (also correct for the
underflow index 0 and the overflow index nbins+1). -/
def Hist.binCenter (h : Hist) (i : ℕ) : ℚ := h.xmin + ((i : ℚ) - 1/2) * h.binWidth

/-- `TH1::GetBinContent(i)` (0 outside the stored array). -/
def Hist.binContent (h : Hist) (i : ℕ) : ℚ := h.content.getD i 0

/-- The running state of the provisional-peak scan: `maxBin`, `chargePeak`
(the bin center of `maxBin`) and `chargePeakValue` (its content). -/
structure ScanState where
  maxBin : ℕ
  chargePeak : ℚ
  chargePeakValue : ℚ
deriving DecidableEq

/-- One iteration of the peak-search loop: a bin whose center is below the
minimum search charge is skipped, otherwise a strictly larger content
replaces the running maximum. -/
def scanStep (h : Hist) (minSearch : ℚ) (st : ScanState) (i : ℕ) : ScanState :=
  if h.binCenter i < minSearch then st
  else if st.chargePeakValue < h.binContent i then ⟨i, h.binCenter i, h.binContent i⟩
  else st

/-- The provisional-peak scan (source lines 456-473): the loop runs
`for (int i = 0; i < lastBin; ++i)` with `lastBin = GetNbins() - 1`, so it
visits the indices `0, 1, ..., nbins - 2` — the underflow bin through the
third-from-last stored bin, never the last two real bins. -/
def scanPeak (h : Hist) (minSearch : ℚ) : ScanState :=
  (List.range (h.nbins - 1)).foldl (scanStep h minSearch) ⟨0, 0, 0⟩

/-- Spec-words version for claim C6: the scan visits all (real) bins
`1..nbins`. -/
def scanPeakSpec (h : Hist) (minSearch : ℚ) : ScanState :=
  ((List.range h.nbins).map (· + 1)).foldl (scanStep h minSearch) ⟨0, 0, 0⟩

/-- The downward half-maximum walk (source lines 479-485):
`for (int bin = maxBin; bin > 0; --bin)`, returning the center of the first
bin whose content drops below `half`, and the initial value 0 when no bin
does. -/
def walkDown (h : Hist) (half : ℚ) : ℕ → ℚ
  | 0 => 0
  | b + 1 =>
      if h.binContent (b + 1) < half then h.binCenter (b + 1)
      else walkDown h half b

/-- The upward half-maximum walk with explicit fuel: visits `fuel` bins
starting at `b`, returning the center of the first one whose content drops
below `half`, and 0 when none does. -/
def walkUpAux (h : Hist) (half : ℚ) : ℕ → ℕ → ℚ
  | 0, _ => 0
  | fuel + 1, b =>
      if h.binContent b < half then h.binCenter b
      else walkUpAux h half fuel (b + 1)

/-- The upward half-maximum walk (source lines 486-492):
`for (int bin = maxBin; bin <= lastBin; ++bin)` with `lastBin = nbins - 1`. -/
def walkUp (h : Hist) (half : ℚ) (maxBin lastBin : ℕ) : ℚ :=
  walkUpAux h half (lastBin + 1 - maxBin) maxBin

/-- The Gaussian fit range `[minChargeForFit, maxChargeForFit]` the source
computes for the peak mode: both walks start at the provisional peak bin and
look for content below half the provisional peak value. -/
def gaussRange (h : Hist) (minSearch : ℚ) : ℚ × ℚ :=
  let st := scanPeak h minSearch
  (walkDown h (1/2 * st.chargePeakValue) st.maxBin,
   walkUp h (1/2 * st.chargePeakValue) st.maxBin (h.nbins - 1))

/-- The argument package of the sigmoid ("Fermi") fit
`[0]/(1+TMath::Exp([1]*(x-[2])))`: fit range `[lo, hi]`, parameter 0 fixed to
`amp`, parameter 1 (the slope) started at `slopeInit` and limited to
`[slopeLo, slopeHi]`, parameter 2 (the edge) started at `edgeInit`. -/
structure FermiCall where
  lo : ℚ
  hi : ℚ
  amp : ℚ
  slopeInit : ℚ
  slopeLo : ℚ
  slopeHi : ℚ
  edgeInit : ℚ
deriving DecidableEq

/-- The sigmoid-fit call the source builds (lines 497-502): range from the
provisional peak position to `maxCharge = GetBinCenter(lastBin)` with
`lastBin = nbins - 1` (the second-to-last stored bin), amplitude fixed to the
provisional peak value, slope started at 0.01 and limited to [0.0001, 1],
edge started at the provisional peak position. -/
def fermiCallOf (h : Hist) (minSearch : ℚ) : FermiCall :=
  let st := scanPeak h minSearch
  ⟨st.chargePeak, h.binCenter (h.nbins - 1), st.chargePeakValue,
   1/100, 1/10000, 1, st.chargePeak⟩

/-- Spec-words version for claim C7: the sigmoid fit ranges from the
provisional peak position to the histogram maximum `xmax`. -/
def fermiCallSpec (h : Hist) (minSearch : ℚ) : FermiCall :=
  let st := scanPeak h minSearch
  ⟨st.chargePeak, h.xmax, st.chargePeakValue, 1/100, 1/10000, 1, st.chargePeak⟩

/-- The numerical curve-fitting engine (ROOT's `TH1::Fit` / `TF1`), modelled
as an oracle: `gauss h lo hi` is the fitted mean of a Gaussian restricted to
`[lo, hi]`, `fermi h call` is the fitted edge parameter of the sigmoid fit
described by `call`. -/
structure FitOracle where
  gauss : Hist → ℚ → ℚ → ℚ
  fermi : Hist → FermiCall → ℚ

/-- The peak locator for one pad (source lines 505-517): nothing is stored
when the histogram has fewer than `fMinHistogramEntries` entries; otherwise
the configured fit is run and its location parameter is the result
(parameter 1 of the Gaussian — the mean — or parameter 2 of the sigmoid —
the edge). A fit-function string other than "Gaussian" or "Fermi" stores
nothing. -/
def locate (oracle : FitOracle) (fitFunction : String) (minEntries : ℕ)
    (minSearch : ℚ) (h : Hist) : Option ℚ :=
  if minEntries ≤ h.entries then
    if fitFunction = "Gaussian" then
      some (oracle.gauss h (gaussRange h minSearch).1 (gaussRange h minSearch).2)
    else if fitFunction = "Fermi" then
      some (oracle.fermi h (fermiCallOf h minSearch))
    else none
  else none

/-- One step of the per-pad analysis loop: when the locator produces a peak,
it is recorded in the per-pad result map (`spectrumADCs`) and handed to the
sector accumulator (`totalAccumulators.AddValue`); otherwise the pad leaves
both untouched. `acc.1` is the sector accumulator's value list, `acc.2` the
per-pad records. -/
def processPad (oracle : FitOracle) (fitFunction : String) (minEntries : ℕ)
    (minSearch : ℚ) (acc : List ℚ × List (ℕ × ℚ)) (pad : ℕ × Hist) :
    List ℚ × List (ℕ × ℚ) :=
  match locate oracle fitFunction minEntries minSearch pad.2 with
  | some v => (acc.1 ++ [v], acc.2 ++ [(pad.1, v)])
  | none => acc

/-- One padrow of the geometry provider: its id and its pad count. -/
structure GeoPadrow where
  id : ℕ
  nPads : ℕ
deriving DecidableEq

/-- One sector of the geometry provider: its id and its ordered padrows. -/
structure GeoSector where
  id : ℕ
  padrows : List GeoPadrow
deriving DecidableEq

/-- One TPC chamber of the geometry provider: its id and its ordered
sectors. -/
structure GeoChamber where
  id : ℕ
  sectors : List GeoSector
deriving DecidableEq

/-- The detector geometry: the ordered chambers. -/
structure Geometry where
  chambers : List GeoChamber
deriving DecidableEq

/-- One token of the emitted gain table: the opening/closing markers of the
four nesting levels and the individual pad gain values. -/
inductive Tok where
  | tpcOpen (id : ℕ)
  | tpcClose
  | secOpen (id : ℕ)
  | secClose
  | rowOpen (id : ℕ)
  | rowClose
  | padsOpen
  | padsClose
  | val (v : DVal)
deriving DecidableEq

/-- One row of the audit TTree (`fResultTree`): ids, the pad's spectrum ADC
(`fSpectrumADC`) and the sanitized gain (`fGain`). -/
structure AuditRow where
  tpcId : ℕ
  sectorId : ℕ
  padrowId : ℕ
  padId : ℕ
  spectrumADC : ℚ
  gain : DVal
deriving DecidableEq

/-- The configuration of the emission loop: calibration TPC list, update
mode, prior-gain lookup and the acceptable-gain bounds. -/
structure GCfg where
  tpcList : List ℕ
  updateGains : Bool
  prior : ℕ → ℕ → ℕ → ℕ → ℚ
  minG : ℚ
  maxG : ℚ

/-- The data the emission loop reads: the sector averages
(`totalAccumulators.GetAverage`) and the per-pad located peaks
(`spectrumADCs`; the source reads the nested map with `operator[]`, which
yields 0.0 for a pad with no record). -/
structure GEnv where
  savg : ℕ → ℕ → DVal
  padADC : ℕ → ℕ → ℕ → ℕ → Option ℚ

/-- The gain the emission loop computes for one pad:
`padADC = spectrumADCs[tpcId][sectorId][padrowId][padId]` (0 when the pad has
no record) and then the `computeGain` formula. -/
def padGainCode (c : GCfg) (e : GEnv) (t s r p : ℕ) : DVal :=
  computeGain c.updateGains (c.prior t s r p) (e.savg t s)
    (.fin ((e.padADC t s r p).getD 0))

/-- The output of one pad iteration of the emission loop (source lines
575-613): the calibration-list check `continue`s before the audit fill and
the value write, so a pad of a TPC not in the list contributes neither a
table value nor an audit row, while a pad of a listed TPC contributes the
`padResult` pair (sanitized gain to the audit tree, accepted-or-sentinel
value to the table). -/
def padOut (c : GCfg) (e : GEnv) (t s r p : ℕ) : List Tok × List AuditRow :=
  if t ∈ c.tpcList then
    let g := padGainCode c e t s r p
    ([.val (padResult c.minG c.maxG g).2],
     [⟨t, s, r, p, (e.padADC t s r p).getD 0, (padResult c.minG c.maxG g).1⟩])
  else ([], [])

/-- One padrow of the emission loop: the `<Padrow>`/`<PadGains>` markers are
written unconditionally, the pad values for `padId = 1..nPads` in ascending
order between them. -/
def emitRow (c : GCfg) (e : GEnv) (t s : ℕ) (row : GeoPadrow) :
    List Tok × List AuditRow :=
  let inner := (List.range row.nPads).map (fun i => padOut c e t s row.id (i + 1))
  ([.rowOpen row.id, .padsOpen] ++ (inner.map (·.1)).flatten ++ [.padsClose, .rowClose],
   (inner.map (·.2)).flatten)

/-- One sector of the emission loop: the `<Sector>` markers are written
unconditionally around its padrows. -/
def emitSector (c : GCfg) (e : GEnv) (t : ℕ) (sec : GeoSector) :
    List Tok × List AuditRow :=
  let inner := sec.padrows.map (emitRow c e t sec.id)
  ([.secOpen sec.id] ++ (inner.map (·.1)).flatten ++ [.secClose],
   (inner.map (·.2)).flatten)

/-- One chamber of the emission loop: the `<TPC>` markers are written
unconditionally around its sectors — the calibration-list check happens only
inside the pad loop. -/
def emitChamber (c : GCfg) (e : GEnv) (ch : GeoChamber) :
    List Tok × List AuditRow :=
  let inner := ch.sectors.map (emitSector c e ch.id)
  ([.tpcOpen ch.id] ++ (inner.map (·.1)).flatten ++ [.tpcClose],
   (inner.map (·.2)).flatten)

/-- The whole gain-table emission (source lines 558-620): every chamber of
the geometry in provider order. -/
def emitTable (c : GCfg) (e : GEnv) (g : Geometry) : List Tok × List AuditRow :=
  let inner := g.chambers.map (emitChamber c e)
  ((inner.map (·.1)).flatten, (inner.map (·.2)).flatten)

/-- The table value the specification ascribes to one pad: the sentinel -1
for a pad with no gain record, the accepted-or-sentinel gain value
otherwise. -/
def specPadVal (c : GCfg) (e : GEnv) (t s r p : ℕ) : DVal :=
  match e.padADC t s r p with
  | none => .fin (-1)
  | some q =>
      tableValue c.minG c.maxG
        (computeGain c.updateGains (c.prior t s r p) (e.savg t s) (.fin q))

/-- Spec-words table walker, parameterized by which pads receive a value:
geometry nesting order with markers per level, and one `specPadVal` per pad
(in ascending pad order) of a chamber satisfying `keep`. -/
def emitSpecTok (keep : ℕ → Bool) (c : GCfg) (e : GEnv) (g : Geometry) : List Tok :=
  (g.chambers.map (fun ch =>
    [Tok.tpcOpen ch.id] ++
    (ch.sectors.map (fun sec =>
      [Tok.secOpen sec.id] ++
      (sec.padrows.map (fun row =>
        [Tok.rowOpen row.id, Tok.padsOpen] ++
        (if keep ch.id then
          (List.range row.nPads).map (fun i =>
            Tok.val (specPadVal c e ch.id sec.id row.id (i + 1)))
         else []) ++
        [Tok.padsClose, Tok.rowClose])).flatten ++
      [Tok.secClose])).flatten ++
    [Tok.tpcClose])).flatten

/-- Spec-words version for claim C4: one value for every pad of every
chamber. -/
def emitSpecAllTok (c : GCfg) (e : GEnv) (g : Geometry) : List Tok :=
  emitSpecTok (fun _ => true) c e g

/-- The corrected table shape: one value per pad of the chambers in the
calibration list only. -/
def emitSpecListedTok (c : GCfg) (e : GEnv) (g : Geometry) : List Tok :=
  emitSpecTok (fun t => t ∈ c.tpcList) c e g

/-- The bare block structure of one chamber: all markers, no pad values. -/
def chamberSkeleton (ch : GeoChamber) : List Tok :=
  [Tok.tpcOpen ch.id] ++
  (ch.sectors.map (fun sec =>
    [Tok.secOpen sec.id] ++
    (sec.padrows.map (fun row =>
      [Tok.rowOpen row.id, Tok.padsOpen, Tok.padsClose, Tok.rowClose])).flatten ++
    [Tok.secClose])).flatten ++
  [Tok.tpcClose]

/-- A value token is finite (never NaN, never infinite). -/
def Tok.valFinite : Tok → Bool
  | .val (.fin _) => true
  | .val _ => false
  | _ => true

/-- A value token is the sentinel -1 or a value strictly above `minG`. -/
def Tok.valAboveMinOrSentinel (minG : ℚ) : Tok → Bool
  | .val v => (v = DVal.fin (-1) : Bool) || DVal.lt (.fin minG) v
  | _ => true

/-- Count of value tokens in a token list. -/
def valCount (l : List Tok) : ℕ :=
  (l.filter (fun t => match t with | .val _ => true | _ => false)).length

/-- A curve-fit oracle used to instantiate the locator theorems on concrete
histograms. -/
def oracleW : FitOracle :=
  ⟨fun _ lo hi => lo + hi, fun _ fc => fc.edgeInit⟩

/-- A concrete pad spectrum: 3 real bins on [0, 6] (bin centers 1, 3, 5; the
underflow center is -1), contents 1, 5, 2, and 10 fill entries. -/
def cxHist : Hist := ⟨3, 0, 6, [0, 1, 5, 2, 0], 10⟩

/-- A concrete accumulation configuration: TPC 1 calibrated, minPads = 2. -/
def c1cxCfg : ACfg := ⟨[1], 2, 4, 0, 9, 0, 0, 0, false, fun _ _ _ _ => 1⟩

/-- A concrete accumulation state with one empty pad histogram everywhere. -/
def c1cxSt : AccState := ⟨fun _ _ => [], fun _ _ => [], fun _ _ _ _ => some []⟩

/-- A concrete cluster event on TPC 1 with nPads = 1 (one below minPads). -/
def c1cxEv : ClusterEvent := ⟨1, 1, 5, 0, 0, 1, 0, 1, 1⟩

/-- A concrete accumulation state whose pad-histogram map is empty: no pad
histogram was pre-created from the geometry. -/
def c8cxSt : AccState := ⟨fun _ _ => [], fun _ _ => [], fun _ _ _ _ => none⟩

/-- A concrete cluster event on TPC 1 that passes all cuts of `c1cxCfg`. -/
def c8cxEv : ClusterEvent := ⟨1, 1, 5, 0, 0, 2, 0, 1, 1⟩

/-- A one-chamber geometry (chamber id 5, one sector, one padrow, one pad). -/
def cxGeom : Geometry := ⟨[⟨5, [⟨1, [⟨1, 1⟩]⟩]⟩]⟩

/-- An emission configuration whose calibration list is empty. -/
def c4cfg : GCfg := ⟨[], false, fun _ _ _ _ => 1, 0, 2⟩

/-- An emission environment with no located peaks and zero averages. -/
def c4env : GEnv := ⟨fun _ _ => .fin 0, fun _ _ _ _ => none⟩

/-- An emission configuration with a negative lower acceptable-gain bound
and chamber 5 calibrated. -/
def c4cfgNeg : GCfg := ⟨[5], false, fun _ _ _ _ => 1, -2, 2⟩

/-- An emission environment making pad (5,1,1,1) evaluate to gain -1/2:
sector average -1, located pad peak 2. -/
def c4envNeg : GEnv := ⟨fun _ _ => .fin (-1), fun _ _ _ _ => some 2⟩

/-- An emission configuration with chamber 1 calibrated. -/
def c9cfg : GCfg := ⟨[1], false, fun _ _ _ _ => 1, 0, 2⟩

/-- An emission environment for a sector with zero contributing pads: the
sector average is the undefined empty average, and no pad has a record. -/
def c9env : GEnv := ⟨fun _ _ => sectorAverage [], fun _ _ _ _ => none⟩

/-- A one-chamber geometry with chamber id 1. -/
def c9geom : Geometry := ⟨[⟨1, [⟨1, [⟨1, 1⟩]⟩]⟩]⟩

/-- Spec-words version for claim C9: a sector whose average is undefined
because every pad was excluded is surfaced as an explicit failure rather
than silently defaulted into the per-pad gain computation and output table —
formalized: such a sector's block of the emitted table carries no
(defaulted) pad value tokens. -/
def undefinedSectorSurfacedSpec : Prop :=
  ∀ (c : GCfg) (e : GEnv) (t : ℕ) (sec : GeoSector),
    e.savg t sec.id = DVal.nan →
    (emitSector c e t sec).1.all
      (fun tok => match tok with | .val _ => false | _ => true) = true

/-- The invariant of the provisional-peak scan: the state is either still the
initial one or records an actually visited, unskipped bin together with its
center and content. -/
def ScanInv (h : Hist) (m : ℚ) (bound : ℕ) (st : ScanState) : Prop :=
  st = ⟨0, 0, 0⟩ ∨
  (st.maxBin < bound ∧ ¬ h.binCenter st.maxBin < m ∧
   st.chargePeak = h.binCenter st.maxBin ∧ st.chargePeakValue = h.binContent st.maxBin)

theorem acceptable_div_zero (minG maxG : ℚ) (x : DVal) :
    acceptableGain minG maxG (DVal.div x (.fin 0)) = false := by
  cases x <;> simp only [DVal.div, acceptableGain] <;>
    first
      | (split_ifs <;> simp [DVal.lt])
      | simp [DVal.lt]

theorem tableValue_padADC_zero (minG maxG priorGain : ℚ) (upd : Bool) (savg : DVal) :
    tableValue minG maxG (computeGain upd priorGain savg (.fin 0)) = .fin (-1) := by
  cases upd <;> simp [computeGain, tableValue, acceptable_div_zero]

theorem tableValue_shape (minG maxG : ℚ) (g : DVal) :
    tableValue minG maxG g = .fin (-1) ∨
    ∃ q, g = .fin q ∧ minG < q ∧ q < maxG ∧ tableValue minG maxG g = .fin q := by
  cases g with
  | fin q =>
      by_cases h1 : minG < q
      · by_cases h2 : q < maxG
        · exact Or.inr ⟨q, rfl, h1, h2, by simp [tableValue, acceptableGain, DVal.lt, h1, h2]⟩
        · exact Or.inl (by simp [tableValue, acceptableGain, DVal.lt, h2])
      · exact Or.inl (by simp [tableValue, acceptableGain, DVal.lt, h1])
  | pinf => exact Or.inl (by simp [tableValue, acceptableGain, DVal.lt])
  | ninf => exact Or.inl (by simp [tableValue, acceptableGain, DVal.lt])
  | nan => exact Or.inl (by simp [tableValue, acceptableGain, DVal.lt])

/-- Claim C2: for every pad with a located peak and a defined sector
average, the computed gain is `sectorAverage / padPeak` when not updating
and `priorGain * sectorAverage / padPeak` when updating. -/
theorem C2_computeGain (p s q : ℚ) (hq : q ≠ 0) :
    computeGain false p (.fin s) (.fin q) = .fin (s / q) ∧
    computeGain true p (.fin s) (.fin q) = .fin (p * s / q) :=
  ⟨by simp [computeGain, DVal.div, DVal.mul, hq],
   by simp [computeGain, DVal.div, DVal.mul, hq]⟩

/-- Witness for C2 at the spec's concrete input: sectorAverage = 100,
padPeak = 50, priorGain = 2 yields gain 4 in update mode. -/
theorem C2_computeGain_w :
    (50 : ℚ) ≠ 0 ∧ computeGain true 2 (.fin 100) (.fin 50) = .fin 4 := by
  refine ⟨by norm_num, ?_⟩
  rw [(C2_computeGain 2 100 50 (by norm_num)).2]
  norm_num

/-- Counterexample for C3: the source applies the NaN/infinity coercion only
to the audit value; the acceptability check runs on the raw gain.  With
minAcceptableGain = -1 and maxAcceptableGain = 1, a NaN gain yields the
sentinel -1 in the table, while the claim's coerce-before-check order would
accept the coerced 0 and write 0. -/
theorem C3_cx :
    tableValue (-1) 1 .nan = .fin (-1) ∧
    tableValueCoerceFirstSpec (-1) 1 .nan = .fin 0 ∧
    tableValue (-1) 1 .nan ≠ tableValueCoerceFirstSpec (-1) 1 .nan := by
  refine ⟨?_, ?_, ?_⟩ <;>
    norm_num [tableValue, tableValueCoerceFirstSpec, sanitizedGain,
      acceptableGain, DVal.lt, DVal.isNanB, DVal.isInfB]

/-- Claim C3 (amended): the coercion of a NaN or infinite gain to 0 applies
only to the audit record; the acceptability check runs on the raw gain with
strict bounds (NaN and infinite gains always fail it, so the table receives
-1 for them); the table receives the gain exactly when acceptable;
and the audit record always receives the sanitized gain. -/
theorem C3_gainGuards (minG maxG : ℚ) (g : DVal) (q : ℚ) :
    (g.isNanB = true ∨ g.isInfB = true → padResult minG maxG g = (.fin 0, .fin (-1))) ∧
    acceptableGain minG maxG (.fin minG) = false ∧
    acceptableGain minG maxG (.fin maxG) = false ∧
    (minG < q → q < maxG → padResult minG maxG (.fin q) = (.fin q, .fin q)) ∧
    (acceptableGain minG maxG g = false → (padResult minG maxG g).2 = .fin (-1)) ∧
    (padResult minG maxG g).1 = sanitizedGain g := by
  refine ⟨?_, ?_, ?_, ?_, ?_, rfl⟩
  · rintro (hn | hi)
    · cases g <;> simp_all [DVal.isNanB, padResult, sanitizedGain, tableValue,
        acceptableGain, DVal.lt, DVal.isInfB]
    · cases g <;> simp_all [DVal.isInfB, padResult, sanitizedGain, tableValue,
        acceptableGain, DVal.lt, DVal.isNanB]
  · simp [acceptableGain, DVal.lt]
  · simp [acceptableGain, DVal.lt]
  · intro h1 h2
    simp [padResult, sanitizedGain, tableValue, acceptableGain, DVal.lt,
      DVal.isNanB, DVal.isInfB, h1, h2]
  · intro hacc
    simp [padResult, tableValue, hacc]

/-- Witness for C3: at minG = 0, maxG = 2 a NaN gain is audited as 0 and
written as -1, and the in-range gain 1 is audited and written as 1. -/
theorem C3_gainGuards_w :
    padResult 0 2 .nan = (.fin 0, .fin (-1)) ∧ padResult 0 2 (.fin 1) = (.fin 1, .fin 1) :=
  ⟨(C3_gainGuards 0 2 .nan 1).1 (Or.inl rfl),
   (C3_gainGuards 0 2 .nan 1).2.2.2.1 (by norm_num) (by norm_num)⟩

/-- Counterexample for C9: with a sector whose average is undefined (no
contributing pad, spec-modelled NaN average), the emission does not surface
a failure: the sector's block of the table still receives a (defaulted)
sentinel value token. -/
theorem C9_cx : ¬ undefinedSectorSurfacedSpec := by
  intro hs
  have h := hs c9cfg c9env 1 ⟨1, [⟨1, 1⟩]⟩
    (by norm_num [c9env, sectorAverage, DVal.div])
  norm_num [emitSector, emitRow, padOut, c9cfg, c9env, List.range_succ] at h

/-- Claim C9 (amended): a sector whose average is undefined because every
pad was excluded is silently defaulted, not surfaced: the spec-modelled
average of an empty value list is NaN, each of the sector's pads then gets
audit gain 0 and the table sentinel -1, and the emission continues
normally. -/
theorem C9_undefinedSectorDefaults (upd : Bool) (priorGain minG maxG padv : ℚ) :
    sectorAverage [] = .nan ∧
    padResult minG maxG (computeGain upd priorGain (sectorAverage []) (.fin padv)) =
      (.fin 0, .fin (-1)) := by
  have havg : sectorAverage [] = .nan := by
    norm_num [sectorAverage, DVal.div]
  refine ⟨havg, ?_⟩
  rw [havg]
  cases upd <;>
    simp [computeGain, DVal.div, DVal.mul, padResult, sanitizedGain, tableValue,
      acceptableGain, DVal.lt, DVal.isNanB, DVal.isInfB]

/-- The rescaled charge an accepted event is filled with: the raw charge, or
the prior-gain-scaled charge in update mode. -/
theorem processEvent_cases (c : ACfg) (st : AccState) (e : ClusterEvent)
    (hT : e.tpcId ∈ c.tpcList) :
    (passesCuts c e = false ∧ processEvent c st e =
      .ok { st with secNoCuts := upd2 st.secNoCuts e.tpcId e.sectorId (· ++ [e.charge]) }) ∨
    (passesCuts c e = true ∧ st.padHist e.tpcId e.sectorId e.padrow e.pad = none ∧
      processEvent c st e = .error ()) ∨
    (∃ l, passesCuts c e = true ∧
      st.padHist e.tpcId e.sectorId e.padrow e.pad = some l ∧
      processEvent c st e = .ok
        ⟨upd2 st.secNoCuts e.tpcId e.sectorId (· ++ [e.charge]),
         upd2 st.secAllCuts e.tpcId e.sectorId
           (· ++ [if c.updateGains then e.charge * c.prior e.tpcId e.sectorId e.padrow e.pad
                  else e.charge]),
         upd4 st.padHist e.tpcId e.sectorId e.padrow e.pad
           (some (l ++ [if c.updateGains then
                          e.charge * c.prior e.tpcId e.sectorId e.padrow e.pad
                        else e.charge]))⟩) := by
  by_cases hp : passesCuts c e
  · cases hm : st.padHist e.tpcId e.sectorId e.padrow e.pad with
    | none =>
        refine Or.inr (Or.inl ⟨hp, rfl, ?_⟩)
        simp [processEvent, hT, hp, hm]
    | some l =>
        refine Or.inr (Or.inr ⟨l, hp, rfl, ?_⟩)
        simp [processEvent, hT, hp, hm]
  · refine Or.inl ⟨by simpa using hp, ?_⟩
    simp [processEvent, hT, hp]

theorem upd2_self (f : ℕ → ℕ → List ℚ) (a b : ℕ) (g : List ℚ → List ℚ) :
    upd2 f a b g a b = g (f a b) := by
  simp [upd2]

theorem upd4_self (f : ℕ → ℕ → ℕ → ℕ → Option (List ℚ)) (a b c d : ℕ)
    (v : Option (List ℚ)) : upd4 f a b c d v a b c d = v := by
  simp [upd4]

/-- Counterexample for C1: the program has no per-pad "no-cuts" histogram —
the only per-pad histogram is filled after the cuts.  A cut-rejected event
(here nPads = 1 < minPads = 2) is processed successfully yet leaves its
pad's histogram empty, refuting "the event's pad no-cuts histogram is always
filled with the event's charge". -/
theorem C1_cx : ¬ padNoCutsAlwaysFilledSpec := by
  intro hp
  have h := hp c1cxCfg c1cxSt c1cxEv
    { c1cxSt with
      secNoCuts := upd2 c1cxSt.secNoCuts c1cxEv.tpcId c1cxEv.sectorId (· ++ [c1cxEv.charge]) }
    (by norm_num [processEvent, passesCuts, c1cxCfg, c1cxSt, c1cxEv]) [] rfl
  obtain ⟨l', hl', hlen⟩ := h
  simp [c1cxSt, c1cxEv] at hl'
  simp [hl'] at hlen

/-- Claim C1 (amended): for every event of a calibrated TPC, the sector-level
no-cuts spectrum is always filled with the event's charge (the program has no
per-pad no-cuts histogram); the per-pad histogram and the sector-level
all-cuts spectrum are filled — with the charge, prior-gain-rescaled in update
mode — exactly when the acceptance predicate holds; and the minPads bound is
sharp: nPads = minPads - 1 is rejected, nPads = minPads is accepted when all
other cuts hold. -/
theorem C1_accumulate (c : ACfg) (st : AccState) (e : ClusterEvent)
    (hT : e.tpcId ∈ c.tpcList) :
    (∀ st', processEvent c st e = .ok st' →
       st'.secNoCuts e.tpcId e.sectorId = st.secNoCuts e.tpcId e.sectorId ++ [e.charge]) ∧
    (passesCuts c e = false →
       ∃ st', processEvent c st e = .ok st' ∧
         st'.padHist = st.padHist ∧ st'.secAllCuts = st.secAllCuts ∧
         st'.secNoCuts e.tpcId e.sectorId = st.secNoCuts e.tpcId e.sectorId ++ [e.charge]) ∧
    (∀ l, passesCuts c e = true →
       st.padHist e.tpcId e.sectorId e.padrow e.pad = some l →
       ∃ st', processEvent c st e = .ok st' ∧
         st'.padHist e.tpcId e.sectorId e.padrow e.pad =
           some (l ++ [if c.updateGains then
                         e.charge * c.prior e.tpcId e.sectorId e.padrow e.pad
                       else e.charge]) ∧
         st'.secAllCuts e.tpcId e.sectorId = st.secAllCuts e.tpcId e.sectorId ++
           [if c.updateGains then e.charge * c.prior e.tpcId e.sectorId e.padrow e.pad
            else e.charge] ∧
         st'.secNoCuts e.tpcId e.sectorId = st.secNoCuts e.tpcId e.sectorId ++ [e.charge]) ∧
    (e.nPads + 1 = c.minPads → passesCuts c e = false) ∧
    (e.nPads = c.minPads → e.charge ≠ 0 → c.minPads ≤ c.maxPads →
       c.minTimeSlices ≤ e.nTimeSlices → e.nTimeSlices ≤ c.maxTimeSlices →
       c.minTimeSliceNumber ≤ e.timeSlice →
       (c.chargeCut ≤ e.charge ∨ c.maxADCCut ≤ (e.maxADC : ℚ)) →
       passesCuts c e = true) := by
  refine ⟨?_, ?_, ?_, ?_, ?_⟩
  · intro st' h
    rcases processEvent_cases c st e hT with ⟨_, heq⟩ | ⟨_, _, heq⟩ | ⟨l, _, _, heq⟩ <;>
      rw [heq] at h
    · cases h
      simp [upd2]
    · cases h
    · cases h
      simp [upd2]
  · intro hp
    rcases processEvent_cases c st e hT with ⟨_, heq⟩ | ⟨hp', _, _⟩ | ⟨l, hp', _, _⟩
    · exact ⟨_, heq, rfl, rfl, by simp [upd2]⟩
    · rw [hp'] at hp; cases hp
    · rw [hp'] at hp; cases hp
  · intro l hp hm
    rcases processEvent_cases c st e hT with ⟨hp', _⟩ | ⟨_, hm', _⟩ | ⟨l', _, hm', heq⟩
    · rw [hp'] at hp; cases hp
    · rw [hm'] at hm; cases hm
    · rw [hm'] at hm
      cases hm
      exact ⟨_, heq, by simp [upd4], by simp [upd2], by simp [upd2]⟩
  · intro hb
    have : e.nPads < c.minPads := by omega
    simp [passesCuts, this]
  · intro h0 hc h2 h3 h4 h5 h6
    have hnp : ¬ e.nPads < c.minPads := by omega
    have hnp2 : ¬ e.nPads > c.maxPads := by omega
    rcases h6 with h6 | h6 <;>
      simp [passesCuts, hc, hnp, hnp2, not_lt.mpr h3, not_lt.mpr h5, h4,
        not_lt.mpr h6, Nat.not_lt.mpr h4]
  -- the nTimeSlices upper bound: nTimeSlices > maxTimeSlices must be false

/-- Witness for C1: the concrete rejected event (nPads = 1 < minPads = 2) on
the empty state leaves the pad histogram and the all-cuts spectrum
untouched while the no-cuts spectrum receives its charge, and the minPads
boundary behaves as stated. -/
theorem C1_accumulate_w :
    (∃ st', processEvent c1cxCfg c1cxSt c1cxEv = .ok st' ∧
       st'.padHist = c1cxSt.padHist ∧ st'.secAllCuts = c1cxSt.secAllCuts ∧
       st'.secNoCuts c1cxEv.tpcId c1cxEv.sectorId =
         c1cxSt.secNoCuts c1cxEv.tpcId c1cxEv.sectorId ++ [c1cxEv.charge]) ∧
    passesCuts c1cxCfg c1cxEv = false ∧
    passesCuts c1cxCfg c8cxEv = true := by
  refine ⟨?_, ?_, ?_⟩
  · exact (C1_accumulate c1cxCfg c1cxSt c1cxEv (by norm_num [c1cxCfg, c1cxEv])).2.1
      (by norm_num [passesCuts, c1cxCfg, c1cxEv])
  · exact (C1_accumulate c1cxCfg c1cxSt c1cxEv (by norm_num [c1cxCfg, c1cxEv])).2.2.2.1
      (by norm_num [c1cxCfg, c1cxEv])
  · exact (C1_accumulate c1cxCfg c1cxSt c8cxEv (by norm_num [c1cxCfg, c8cxEv])).2.2.2.2
      (by norm_num [c1cxCfg, c8cxEv]) (by norm_num [c8cxEv])
      (by norm_num [c1cxCfg]) (by norm_num [c1cxCfg, c8cxEv])
      (by norm_num [c1cxCfg, c8cxEv]) (by norm_num [c1cxCfg, c8cxEv])
      (Or.inl (by norm_num [c1cxCfg, c8cxEv]))

/-- Counterexample for C8: an accepted event of a calibrated TPC whose pad
has no pre-created histogram is not warned about and dropped — the fill goes
through a default-constructed null histogram handle, which is fatal. -/
theorem C8_cx : ¬ unknownGeometryDroppedSpec := by
  intro hd
  obtain ⟨st', hok, _⟩ := hd c1cxCfg c8cxSt c8cxEv rfl
  rw [(by norm_num [processEvent, passesCuts, c1cxCfg, c8cxSt, c8cxEv] :
    processEvent c1cxCfg c8cxSt c8cxEv = .error ())] at hok
  cases hok

/-- Claim C8 (amended): an event of a TPC outside the calibration list is
skipped silently (no warning is issued anywhere in the event loop); an event
of a calibrated TPC that fails the cuts leaves every pad histogram
unchanged; but an accepted event referencing a pad with no pre-created
histogram is fatal (a null-histogram fill), not dropped-and-continued. -/
theorem C8_unknownGeometry (c : ACfg) (st : AccState) (e : ClusterEvent) :
    (e.tpcId ∉ c.tpcList → processEvent c st e = .ok st) ∧
    (e.tpcId ∈ c.tpcList → passesCuts c e = true →
      st.padHist e.tpcId e.sectorId e.padrow e.pad = none →
      processEvent c st e = .error ()) ∧
    (e.tpcId ∈ c.tpcList → passesCuts c e = false →
      ∃ st', processEvent c st e = .ok st' ∧ st'.padHist = st.padHist) := by
  refine ⟨?_, ?_, ?_⟩
  · intro hT
    simp [processEvent, hT]
  · intro hT hp hm
    rcases processEvent_cases c st e hT with ⟨hp', _⟩ | ⟨_, _, heq⟩ | ⟨l, _, hm', _⟩
    · rw [hp'] at hp; cases hp
    · exact heq
    · rw [hm'] at hm; cases hm
  · intro hT hp
    rcases processEvent_cases c st e hT with ⟨_, heq⟩ | ⟨hp', _, _⟩ | ⟨l, hp', _, _⟩
    · exact ⟨_, heq, rfl⟩
    · rw [hp'] at hp; cases hp
    · rw [hp'] at hp; cases hp

/-- Witness for C8: the concrete accepted event on the empty pad-histogram
map is fatal, and the same event on a non-calibrated TPC list is skipped. -/
theorem C8_unknownGeometry_w :
    processEvent c1cxCfg c8cxSt c8cxEv = .error () ∧
    processEvent ⟨[], 2, 4, 0, 9, 0, 0, 0, false, fun _ _ _ _ => 1⟩ c8cxSt c8cxEv =
      .ok c8cxSt := by
  refine ⟨?_, ?_⟩
  · exact (C8_unknownGeometry c1cxCfg c8cxSt c8cxEv).2.1
      (by norm_num [c1cxCfg, c8cxEv])
      (by norm_num [passesCuts, c1cxCfg, c8cxEv]) rfl
  · exact (C8_unknownGeometry _ c8cxSt c8cxEv).1 (by norm_num [c8cxEv])

/-- Claim C5: the locator stores a peak only for a pad whose histogram has at
least minHistogramEntries entries (for the two configured fit modes,
exactly those pads), and the sector accumulator and the per-pad record list
receive the located peak exactly when the locator produced one. -/
theorem C5_threshold (oracle : FitOracle) (ff : String) (minEntries : ℕ) (m : ℚ)
    (h : Hist) (k : ℕ) (acc : List ℚ × List (ℕ × ℚ))
    (hff : ff = "Gaussian" ∨ ff = "Fermi") :
    (∀ ff' v, locate oracle ff' minEntries m h = some v → minEntries ≤ h.entries) ∧
    ((locate oracle ff minEntries m h).isSome ↔ minEntries ≤ h.entries) ∧
    (∀ v, locate oracle ff minEntries m h = some v →
       processPad oracle ff minEntries m acc (k, h) = (acc.1 ++ [v], acc.2 ++ [(k, v)])) ∧
    (locate oracle ff minEntries m h = none →
       processPad oracle ff minEntries m acc (k, h) = acc) ∧
    (h.entries < minEntries → processPad oracle ff minEntries m acc (k, h) = acc) := by
  refine ⟨?_, ?_, ?_, ?_, ?_⟩
  · intro ff' v hv
    by_cases hE : minEntries ≤ h.entries
    · exact hE
    · simp [locate, hE] at hv
  · by_cases hE : minEntries ≤ h.entries
    · rcases hff with hff | hff <;> simp [locate, hE, hff]
    · simp [locate, hE]
  · intro v hv
    simp [processPad, hv]
  · intro hv
    simp [processPad, hv]
  · intro hE
    simp [processPad, locate, Nat.not_le.mpr hE]

/-- Witness for C5 on the concrete spectrum (10 entries): with threshold 1
the peak is stored and accumulated, with threshold 11 the pad contributes
nothing. -/
theorem C5_threshold_w :
    ((locate oracleW "Gaussian" 1 0 cxHist).isSome ↔ (1 : ℕ) ≤ cxHist.entries) ∧
    processPad oracleW "Gaussian" 11 0 ([], []) (7, cxHist) = ([], []) := by
  refine ⟨(C5_threshold oracleW "Gaussian" 1 0 cxHist 7 ([], []) (Or.inl rfl)).2.1, ?_⟩
  exact (C5_threshold oracleW "Gaussian" 11 0 cxHist 7 ([], []) (Or.inl rfl)).2.2.2.2
    (by norm_num [cxHist])

theorem scanStep_val_le (h : Hist) (m : ℚ) (st : ScanState) (i : ℕ) :
    st.chargePeakValue ≤ (scanStep h m st i).chargePeakValue := by
  simp only [scanStep]
  split_ifs with h1 h2
  · exact le_refl _
  · exact le_of_lt h2
  · exact le_refl _

theorem foldl_scan_val_le (h : Hist) (m : ℚ) (l : List ℕ) (st : ScanState) :
    st.chargePeakValue ≤ (l.foldl (scanStep h m) st).chargePeakValue := by
  induction l generalizing st with
  | nil => exact le_refl _
  | cons a l ih => exact le_trans (scanStep_val_le h m st a) (ih _)

theorem foldl_scan_mem_le (h : Hist) (m : ℚ) (l : List ℕ) (st : ScanState) (i : ℕ)
    (hi : i ∈ l) (hc : ¬ h.binCenter i < m) :
    h.binContent i ≤ (l.foldl (scanStep h m) st).chargePeakValue := by
  induction l generalizing st with
  | nil => cases hi
  | cons a l ih =>
      rcases List.mem_cons.mp hi with rfl | hi'
      · refine le_trans ?_ (foldl_scan_val_le h m l (scanStep h m st i))
        simp only [scanStep, if_neg hc]
        split_ifs with h2
        · exact le_refl _
        · exact not_lt.mp h2
      · exact ih _ hi'

theorem foldl_scan_inv (h : Hist) (m : ℚ) (bound : ℕ) (l : List ℕ)
    (hl : ∀ i ∈ l, i < bound) (st : ScanState) (hst : ScanInv h m bound st) :
    ScanInv h m bound (l.foldl (scanStep h m) st) := by
  induction l generalizing st with
  | nil => exact hst
  | cons a l ih =>
      refine ih (fun i hi => hl i (List.mem_cons_of_mem a hi)) _ ?_
      simp only [scanStep]
      split_ifs with h1 h2
      · exact hst
      · exact Or.inr ⟨hl a (List.mem_cons_self a l), h1, rfl, rfl⟩
      · exact hst

theorem walkDown_not_found (h : Hist) (half : ℚ) :
    ∀ n, (∀ b, 1 ≤ b → b ≤ n → ¬ h.binContent b < half) → walkDown h half n = 0 := by
  intro n
  induction n with
  | zero => intro _; rfl
  | succ k ih =>
      intro hb
      have hk : ¬ h.binContent (k + 1) < half := hb (k + 1) (by omega) (le_refl _)
      simp only [walkDown, if_neg hk]
      exact ih (fun b h1 h2 => hb b h1 (by omega))

theorem walkDown_found (h : Hist) (half : ℚ) :
    ∀ n b, 1 ≤ b → b ≤ n → h.binContent b < half →
      (∀ b', b < b' → b' ≤ n → ¬ h.binContent b' < half) →
      walkDown h half n = h.binCenter b := by
  intro n
  induction n with
  | zero => intro b h1 h2 _ _; exact absurd (le_trans h1 h2) (by decide)
  | succ k ih =>
      intro b h1 h2 h3 h4
      by_cases hb : b = k + 1
      · subst hb
        simp [walkDown, h3]
      · have h2' : b ≤ k := by omega
        have hk : ¬ h.binContent (k + 1) < half := h4 (k + 1) (by omega) (le_refl _)
        simp only [walkDown, if_neg hk]
        exact ih b h1 h2' h3 (fun b' hb1 hb2 => h4 b' hb1 (by omega))

theorem walkUpAux_not_found (h : Hist) (half : ℚ) :
    ∀ f b, (∀ j, b ≤ j → j < b + f → ¬ h.binContent j < half) → walkUpAux h half f b = 0 := by
  intro f
  induction f with
  | zero => intro b _; rfl
  | succ k ih =>
      intro b hb
      have h0 : ¬ h.binContent b < half := hb b (le_refl _) (by omega)
      simp only [walkUpAux, if_neg h0]
      exact ih (b + 1) (fun j h1 h2 => hb j (by omega) (by omega))

theorem walkUpAux_found (h : Hist) (half : ℚ) :
    ∀ f b j, b ≤ j → j < b + f → h.binContent j < half →
      (∀ j', b ≤ j' → j' < j → ¬ h.binContent j' < half) →
      walkUpAux h half f b = h.binCenter j := by
  intro f
  induction f with
  | zero => intro b j h1 h2 _ _; exact absurd h2 (by omega)
  | succ k ih =>
      intro b j h1 h2 h3 h4
      by_cases hb : j = b
      · subst hb
        simp [walkUpAux, h3]
      · have h0 : ¬ h.binContent b < half := h4 b (le_refl _) (by omega)
        simp only [walkUpAux, if_neg h0]
        exact ih (b + 1) j (by omega) (by omega) h3 (fun j' hj1 hj2 => h4 j' (by omega) hj2)

/-- Counterexample for C6: the scan runs `for (i = 0; i < lastBin; ++i)` with
`lastBin = nbins - 1`, so it never visits the last two stored bins.  On the
concrete spectrum (3 bins, contents 1, 5, 2, threshold 0) the code's
provisional peak is bin 1 (content 1), while scanning all bins — as the
claim states — would find bin 2 (content 5). -/
theorem C6_cx :
    scanPeak cxHist 0 = ⟨1, 1, 1⟩ ∧ scanPeakSpec cxHist 0 = ⟨2, 3, 5⟩ ∧
    scanPeak cxHist 0 ≠ scanPeakSpec cxHist 0 := by
  have h1 : scanPeak cxHist 0 = ⟨1, 1, 1⟩ := by
    norm_num [scanPeak, scanStep, cxHist, Hist.binCenter, Hist.binContent,
      Hist.binWidth, List.range_succ, List.getD]
  have h2 : scanPeakSpec cxHist 0 = ⟨2, 3, 5⟩ := by
    norm_num [scanPeakSpec, scanStep, cxHist, Hist.binCenter, Hist.binContent,
      Hist.binWidth, List.range_succ, List.getD]
  refine ⟨h1, h2, ?_⟩
  rw [h1, h2]
  simp

/-- Claim C6 (amended): in peak mode, for a pad with enough entries the
locator returns the Gaussian-fit oracle applied to exactly the computed
range; the provisional peak is the maximum-content bin among the bins the
scan visits — all bins of index below nbins - 1 (the loop stops two stored
bins short of the end) whose center is at least minSearchCharge; the fit
lower bound is the center of the first bin at or below the peak bin (down to
bin 1) whose content drops below half the peak value (0 when none does), and
the fit upper bound is, independently, the center of the first bin from the
peak bin up to bin nbins - 1 whose content drops below half the peak value
(0 when none does). -/
theorem C6_peakMode (oracle : FitOracle) (minEntries : ℕ) (m : ℚ) (h : Hist)
    (hE : minEntries ≤ h.entries) :
    locate oracle "Gaussian" minEntries m h =
      some (oracle.gauss h (gaussRange h m).1 (gaussRange h m).2) ∧
    (∀ i, i < h.nbins - 1 → ¬ h.binCenter i < m →
       h.binContent i ≤ (scanPeak h m).chargePeakValue) ∧
    ScanInv h m (h.nbins - 1) (scanPeak h m) ∧
    ((∀ b, 1 ≤ b → b ≤ (scanPeak h m).maxBin →
        ¬ h.binContent b < 1/2 * (scanPeak h m).chargePeakValue) →
      (gaussRange h m).1 = 0) ∧
    (∀ b, 1 ≤ b → b ≤ (scanPeak h m).maxBin →
       h.binContent b < 1/2 * (scanPeak h m).chargePeakValue →
       (∀ b', b < b' → b' ≤ (scanPeak h m).maxBin →
          ¬ h.binContent b' < 1/2 * (scanPeak h m).chargePeakValue) →
       (gaussRange h m).1 = h.binCenter b) ∧
    ((∀ j, (scanPeak h m).maxBin ≤ j → j ≤ h.nbins - 1 →
        ¬ h.binContent j < 1/2 * (scanPeak h m).chargePeakValue) →
      (gaussRange h m).2 = 0) ∧
    (∀ j, (scanPeak h m).maxBin ≤ j → j ≤ h.nbins - 1 →
       h.binContent j < 1/2 * (scanPeak h m).chargePeakValue →
       (∀ j', (scanPeak h m).maxBin ≤ j' → j' < j →
          ¬ h.binContent j' < 1/2 * (scanPeak h m).chargePeakValue) →
       (gaussRange h m).2 = h.binCenter j) := by
  refine ⟨by simp [locate, hE], ?_, ?_, ?_, ?_, ?_, ?_⟩
  · intro i hi hc
    exact foldl_scan_mem_le h m _ _ i (List.mem_range.mpr hi) hc
  · exact foldl_scan_inv h m _ _ (fun i hi => List.mem_range.mp hi) _ (Or.inl rfl)
  · intro hnone
    simpa [gaussRange] using walkDown_not_found h _ _ hnone
  · intro b h1 h2 h3 h4
    simpa [gaussRange] using walkDown_found h _ _ b h1 h2 h3 h4
  · intro hnone
    simp only [gaussRange]
    exact walkUpAux_not_found h _ _ _ (fun j hj1 hj2 => hnone j hj1 (by omega))
  · intro j h1 h2 h3 h4
    simp only [gaussRange]
    exact walkUpAux_found h _ _ _ j h1 (by omega) h3 h4

/-- Witness for C6: on the concrete spectrum with threshold 1 entry, the
locator returns the Gaussian oracle applied to the computed fit range. -/
theorem C6_peakMode_w :
    locate oracleW "Gaussian" 1 0 cxHist =
      some (oracleW.gauss cxHist (gaussRange cxHist 0).1 (gaussRange cxHist 0).2) :=
  (C6_peakMode oracleW 1 0 cxHist (by norm_num [cxHist])).1

/-- Counterexample for C7: the sigmoid fit range ends at
`GetBinCenter(nbins - 1)` — 1.5 bin widths below the histogram maximum — not
at the histogram maximum.  On the concrete spectrum ([0,6], 3 bins) the code
fits up to charge 3 while the claim's range ends at 6. -/
theorem C7_cx :
    fermiCallOf cxHist 0 = ⟨1, 3, 1, 1/100, 1/10000, 1, 1⟩ ∧
    fermiCallSpec cxHist 0 = ⟨1, 6, 1, 1/100, 1/10000, 1, 1⟩ ∧
    fermiCallOf cxHist 0 ≠ fermiCallSpec cxHist 0 := by
  have hs : scanPeak cxHist 0 = ⟨1, 1, 1⟩ := by
    norm_num [scanPeak, scanStep, cxHist, Hist.binCenter, Hist.binContent,
      Hist.binWidth, List.range_succ, List.getD]
  have h1 : fermiCallOf cxHist 0 = ⟨1, 3, 1, 1/100, 1/10000, 1, 1⟩ := by
    simp only [fermiCallOf, hs]
    norm_num [cxHist, Hist.binCenter, Hist.binWidth]
  have h2 : fermiCallSpec cxHist 0 = ⟨1, 6, 1, 1/100, 1/10000, 1, 1⟩ := by
    simp only [fermiCallSpec, hs]
    norm_num [cxHist]
  refine ⟨h1, h2, ?_⟩
  rw [h1, h2]
  simp

/-- Claim C7 (amended): in edge mode, for a pad with enough entries the
locator returns the sigmoid-fit oracle applied to exactly the call the
source builds: fit range from the provisional peak position up to the
center of bin nbins - 1 (1.5 bin widths below the histogram maximum, not
the histogram maximum itself), amplitude fixed to the provisional peak
value, the slope parameter limited to the small positive range
[0.0001, 1], and the returned value is the fitted edge parameter. -/
theorem C7_edgeMode (oracle : FitOracle) (minEntries : ℕ) (m : ℚ) (h : Hist)
    (hE : minEntries ≤ h.entries) (hn : 1 ≤ h.nbins) :
    locate oracle "Fermi" minEntries m h = some (oracle.fermi h (fermiCallOf h m)) ∧
    fermiCallOf h m = ⟨(scanPeak h m).chargePeak, h.xmax - 3/2 * h.binWidth,
      (scanPeak h m).chargePeakValue, 1/100, 1/10000, 1, (scanPeak h m).chargePeak⟩ := by
  constructor
  · simp [locate, hE]
  · have hz : ((h.nbins : ℚ)) ≠ 0 := Nat.cast_ne_zero.mpr (by omega)
    have hcast : ((h.nbins - 1 : ℕ) : ℚ) = (h.nbins : ℚ) - 1 := by
      push_cast [hn]
      ring
    simp only [fermiCallOf, FermiCall.mk.injEq, Hist.binCenter, Hist.binWidth, hcast]
    refine ⟨trivial, ?_, trivial, trivial, trivial, trivial, trivial⟩
    field_simp
    ring

/-- Witness for C7: on the concrete spectrum the edge-mode locator returns
the sigmoid oracle applied to the source's fit call. -/
theorem C7_edgeMode_w :
    locate oracleW "Fermi" 1 0 cxHist = some (oracleW.fermi cxHist (fermiCallOf cxHist 0)) :=
  (C7_edgeMode oracleW 1 0 cxHist (by norm_num [cxHist]) (by norm_num [cxHist])).1

theorem flatten_map_singleton {α β : Type} (f : α → β) (l : List α) :
    (l.map (fun a => [f a])).flatten = l.map f := by
  induction l with
  | nil => rfl
  | cons a l ih => simp [ih]

theorem flatten_map_nil {α β : Type} (l : List α) :
    (l.map (fun _ => ([] : List β))).flatten = [] := by
  induction l with
  | nil => rfl
  | cons a l ih => simp [ih]

theorem padOut_listed (c : GCfg) (e : GEnv) (t s r p : ℕ) (ht : t ∈ c.tpcList) :
    (padOut c e t s r p).1 = [Tok.val (specPadVal c e t s r p)] := by
  cases hp : e.padADC t s r p with
  | none =>
      simp [padOut, ht, specPadVal, hp, padResult, padGainCode, tableValue_padADC_zero]
  | some q =>
      simp [padOut, ht, specPadVal, hp, padResult, padGainCode]

theorem padOut_not_listed (c : GCfg) (e : GEnv) (t s r p : ℕ) (ht : t ∉ c.tpcList) :
    padOut c e t s r p = ([], []) := by
  simp [padOut, ht]

theorem emitRow_tok (c : GCfg) (e : GEnv) (t s : ℕ) (row : GeoPadrow) :
    (emitRow c e t s row).1 =
      [Tok.rowOpen row.id, Tok.padsOpen] ++
      (if t ∈ c.tpcList then
         (List.range row.nPads).map (fun i => Tok.val (specPadVal c e t s row.id (i + 1)))
       else []) ++ [Tok.padsClose, Tok.rowClose] := by
  simp only [emitRow, List.map_map, Function.comp_def]
  by_cases ht : t ∈ c.tpcList
  · rw [if_pos ht]
    congr 1
    congr 1
    rw [List.map_congr_left (fun i _ => padOut_listed c e t s row.id (i + 1) ht),
        flatten_map_singleton]
  · rw [if_neg ht]
    have hmap : ((List.range row.nPads).map (fun i => (padOut c e t s row.id (i + 1)).1))
        = (List.range row.nPads).map (fun _ => ([] : List Tok)) :=
      List.map_congr_left (fun i _ => by
        simp [padOut_not_listed c e t s row.id (i + 1) ht])
    rw [hmap, flatten_map_nil]

theorem emitRow_not_listed_tok (c : GCfg) (e : GEnv) (t s : ℕ) (row : GeoPadrow)
    (ht : t ∉ c.tpcList) :
    (emitRow c e t s row).1 =
      [Tok.rowOpen row.id, Tok.padsOpen, Tok.padsClose, Tok.rowClose] := by
  rw [emitRow_tok, if_neg ht]
  rfl

theorem emitRow_audit_not_listed (c : GCfg) (e : GEnv) (t s : ℕ) (row : GeoPadrow)
    (ht : t ∉ c.tpcList) : (emitRow c e t s row).2 = [] := by
  simp only [emitRow, List.map_map, Function.comp_def]
  have hmap : ((List.range row.nPads).map (fun i => (padOut c e t s row.id (i + 1)).2))
      = (List.range row.nPads).map (fun _ => ([] : List AuditRow)) :=
    List.map_congr_left (fun i _ => by
      simp [padOut_not_listed c e t s row.id (i + 1) ht])
  rw [hmap, flatten_map_nil]

theorem emitSector_tok (c : GCfg) (e : GEnv) (t : ℕ) (sec : GeoSector) :
    (emitSector c e t sec).1 =
      [Tok.secOpen sec.id] ++
      (sec.padrows.map (fun row =>
        [Tok.rowOpen row.id, Tok.padsOpen] ++
        (if t ∈ c.tpcList then
           (List.range row.nPads).map
             (fun i => Tok.val (specPadVal c e t sec.id row.id (i + 1)))
         else []) ++ [Tok.padsClose, Tok.rowClose])).flatten ++ [Tok.secClose] := by
  simp only [emitSector, List.map_map, Function.comp_def]
  congr 1
  congr 1
  exact congrArg List.flatten (List.map_congr_left (fun row _ => emitRow_tok c e t sec.id row))

theorem emitSector_not_listed_tok (c : GCfg) (e : GEnv) (t : ℕ) (sec : GeoSector)
    (ht : t ∉ c.tpcList) :
    (emitSector c e t sec).1 =
      [Tok.secOpen sec.id] ++
      (sec.padrows.map (fun row =>
        [Tok.rowOpen row.id, Tok.padsOpen, Tok.padsClose, Tok.rowClose])).flatten ++
      [Tok.secClose] := by
  simp only [emitSector, List.map_map, Function.comp_def]
  congr 1
  congr 1
  exact congrArg List.flatten
    (List.map_congr_left (fun row _ => emitRow_not_listed_tok c e t sec.id row ht))

theorem emitSector_audit_not_listed (c : GCfg) (e : GEnv) (t : ℕ) (sec : GeoSector)
    (ht : t ∉ c.tpcList) : (emitSector c e t sec).2 = [] := by
  simp only [emitSector, List.map_map, Function.comp_def]
  rw [List.map_congr_left (fun row _ => emitRow_audit_not_listed c e t sec.id row ht),
      flatten_map_nil]

theorem emitChamber_not_listed_tok (c : GCfg) (e : GEnv) (ch : GeoChamber)
    (ht : ch.id ∉ c.tpcList) : (emitChamber c e ch).1 = chamberSkeleton ch := by
  simp only [emitChamber, chamberSkeleton, List.map_map, Function.comp_def]
  congr 1
  congr 1
  exact congrArg List.flatten
    (List.map_congr_left (fun sec _ => emitSector_not_listed_tok c e ch.id sec ht))

theorem emitChamber_audit_not_listed (c : GCfg) (e : GEnv) (ch : GeoChamber)
    (ht : ch.id ∉ c.tpcList) : (emitChamber c e ch).2 = [] := by
  simp only [emitChamber, List.map_map, Function.comp_def]
  rw [List.map_congr_left (fun sec _ => emitSector_audit_not_listed c e ch.id sec ht),
      flatten_map_nil]

theorem emitTable_tok (c : GCfg) (e : GEnv) (g : Geometry) :
    (emitTable c e g).1 = emitSpecListedTok c e g := by
  simp only [emitTable, emitSpecListedTok, emitSpecTok, List.map_map, Function.comp_def,
    decide_eq_true_eq]
  congr 1
  refine List.map_congr_left (fun ch _ => ?_)
  simp only [emitChamber, List.map_map, Function.comp_def]
  congr 1
  congr 1
  exact congrArg List.flatten
    (List.map_congr_left (fun sec _ => emitSector_tok c e ch.id sec))

theorem emitTable_audit_listed (c : GCfg) (e : GEnv) (g : Geometry) :
    ∀ row ∈ (emitTable c e g).2, row.tpcId ∈ c.tpcList := by
  intro row hrow
  simp only [emitTable, List.map_map, Function.comp_def, List.mem_flatten,
    List.mem_map] at hrow
  obtain ⟨x, ⟨ch, _, rfl⟩, hrow⟩ := hrow
  simp only [emitChamber, List.map_map, Function.comp_def, List.mem_flatten,
    List.mem_map] at hrow
  obtain ⟨y, ⟨sec, _, rfl⟩, hrow⟩ := hrow
  simp only [emitSector, List.map_map, Function.comp_def, List.mem_flatten,
    List.mem_map] at hrow
  obtain ⟨z, ⟨r, _, rfl⟩, hrow⟩ := hrow
  simp only [emitRow, List.map_map, Function.comp_def, List.mem_flatten,
    List.mem_map] at hrow
  obtain ⟨w, ⟨i, _, rfl⟩, hrow⟩ := hrow
  by_cases ht : ch.id ∈ c.tpcList
  · simp only [padOut, if_pos ht, List.mem_singleton] at hrow
    subst hrow
    exact ht
  · simp [padOut, if_neg ht] at hrow

theorem emitTable_val_shape (c : GCfg) (e : GEnv) (g : Geometry) :
    ∀ v, Tok.val v ∈ (emitTable c e g).1 →
      v = DVal.fin (-1) ∨ ∃ q, v = DVal.fin q ∧ c.minG < q ∧ q < c.maxG := by
  intro v hv
  simp only [emitTable, List.map_map, Function.comp_def, List.mem_flatten,
    List.mem_map] at hv
  obtain ⟨x, ⟨ch, _, rfl⟩, hv⟩ := hv
  simp only [emitChamber, List.map_map, Function.comp_def] at hv
  rcases List.mem_append.mp hv with hv | hv
  rcases List.mem_append.mp hv with hv | hv
  · simp at hv
  · simp only [List.mem_flatten, List.mem_map] at hv
    obtain ⟨y, ⟨sec, _, rfl⟩, hv⟩ := hv
    simp only [emitSector, List.map_map, Function.comp_def] at hv
    rcases List.mem_append.mp hv with hv | hv
    rcases List.mem_append.mp hv with hv | hv
    · simp at hv
    · simp only [List.mem_flatten, List.mem_map] at hv
      obtain ⟨z, ⟨r, _, rfl⟩, hv⟩ := hv
      simp only [emitRow, List.map_map, Function.comp_def] at hv
      rcases List.mem_append.mp hv with hv | hv
      rcases List.mem_append.mp hv with hv | hv
      · simp at hv
      · simp only [List.mem_flatten, List.mem_map] at hv
        obtain ⟨w, ⟨i, _, rfl⟩, hv⟩ := hv
        by_cases ht : ch.id ∈ c.tpcList
        · simp only [padOut, if_pos ht, List.mem_singleton, Tok.val.injEq] at hv
          subst hv
          rcases tableValue_shape c.minG c.maxG (padGainCode c e ch.id sec.id r.id (i + 1))
            with hshape | ⟨q, _, h1, h2, hshape⟩
          · exact Or.inl hshape
          · exact Or.inr ⟨q, hshape, h1, h2⟩
        · simp [padOut, if_neg ht] at hv
      · simp at hv
    · simp at hv
  · simp at hv

/-- Counterexample for C4: the calibration-list check sits inside the pad
loop, so a TPC outside the list gets block markers but no pad values — the
concrete one-pad geometry (chamber 5) with an empty calibration list yields
zero value tokens where the claim requires one per pad.  Moreover, with a
negative minAcceptableGain (-2) an accepted negative gain (-1/2) is written,
refuting "every value written is a finite non-negative number or -1". -/
theorem C4_cx :
    valCount (emitTable c4cfg c4env cxGeom).1 = 0 ∧
    valCount (emitSpecAllTok c4cfg c4env cxGeom) = 1 ∧
    (emitTable c4cfg c4env cxGeom).1 ≠ emitSpecAllTok c4cfg c4env cxGeom ∧
    Tok.val (.fin (-(1/2))) ∈ (emitTable c4cfgNeg c4envNeg cxGeom).1 := by
  refine ⟨by decide, by decide, by decide, ?_⟩
  have hval : (padResult c4cfgNeg.minG c4cfgNeg.maxG
      (padGainCode c4cfgNeg c4envNeg 5 1 1 1)).2 = .fin (-(1/2)) := by
    have hg : padGainCode c4cfgNeg c4envNeg 5 1 1 1 = .fin (-(1/2)) := by
      norm_num [padGainCode, c4cfgNeg, c4envNeg, computeGain, DVal.div]
    rw [hg]
    norm_num [padResult, tableValue, acceptableGain, DVal.lt, c4cfgNeg]
  have ht : 5 ∈ c4cfgNeg.tpcList := by norm_num [c4cfgNeg]
  simp [emitTable, emitChamber, emitSector, emitRow, padOut, cxGeom, ht,
    List.range_succ, hval]

/-- Claim C4 (amended): the emitted table walks the geometry in provider
nesting order with markers for every level of every chamber, and writes
exactly one value per pad, in ascending pad order, for the chambers in the
calibration list (a chamber outside the list gets markers but no values);
a pad with no gain record yields the sentinel -1; every value written is
finite — never NaN or infinite — and is either the sentinel -1 or a value
strictly between the acceptable-gain bounds, hence non-negative whenever
minAcceptableGain is non-negative. -/
theorem C4_table (c : GCfg) (e : GEnv) (g : Geometry) :
    (emitTable c e g).1 = emitSpecListedTok c e g ∧
    (∀ tok ∈ (emitTable c e g).1, tok.valFinite = true) ∧
    (0 ≤ c.minG → ∀ tok ∈ (emitTable c e g).1, tok.valAboveMinOrSentinel c.minG = true) := by
  refine ⟨emitTable_tok c e g, ?_, ?_⟩
  · intro tok htok
    cases tok <;> try rfl
    case val v =>
      rcases emitTable_val_shape c e g v htok with h | ⟨q, hq, _, _⟩
      · subst h
        rfl
      · subst hq
        rfl
  · intro hmin tok htok
    cases tok <;> try rfl
    case val v =>
      rcases emitTable_val_shape c e g v htok with h | ⟨q, hq, h1, _⟩
      · subst h
        simp [Tok.valAboveMinOrSentinel]
      · subst hq
        simp [Tok.valAboveMinOrSentinel, DVal.lt, h1]

/-- Witness for C4: on the concrete one-pad geometry with calibrated chamber
1 and minAcceptableGain 0, the emitted table equals the spec-shaped listed
table and every value token is the sentinel or above the lower bound. -/
theorem C4_table_w :
    (0 : ℚ) ≤ c9cfg.minG ∧
    (emitTable c9cfg c9env c9geom).1 = emitSpecListedTok c9cfg c9env c9geom ∧
    (∀ tok ∈ (emitTable c9cfg c9env c9geom).1, tok.valFinite = true) ∧
    (∀ tok ∈ (emitTable c9cfg c9env c9geom).1,
       tok.valAboveMinOrSentinel c9cfg.minG = true) :=
  ⟨by norm_num [c9cfg], (C4_table c9cfg c9env c9geom).1,
   (C4_table c9cfg c9env c9geom).2.1,
   (C4_table c9cfg c9env c9geom).2.2 (by norm_num [c9cfg])⟩

/-- Claim C10: the emission loop writes the TPC/Sector/Padrow/PadGains block
markers before the calibration-list check, so a TPC outside the list keeps
its complete block structure with empty PadGains lines, and no audit row is
filled for any of its pads (every audit row's TPC is in the list). -/
theorem C10_structure (c : GCfg) (e : GEnv) (ch : GeoChamber) (g : Geometry)
    (hch : ch.id ∉ c.tpcList) :
    (emitChamber c e ch).1 = chamberSkeleton ch ∧
    (emitChamber c e ch).2 = [] ∧
    (∀ row ∈ (emitTable c e g).2, row.tpcId ∈ c.tpcList) :=
  ⟨emitChamber_not_listed_tok c e ch hch, emitChamber_audit_not_listed c e ch hch,
   emitTable_audit_listed c e g⟩

/-- Witness for C10: the concrete non-calibrated chamber 5 emits exactly its
skeleton markers and no audit rows. -/
theorem C10_structure_w :
    (emitChamber c9cfg c4env ⟨5, [⟨1, [⟨1, 1⟩]⟩]⟩).1 =
      chamberSkeleton ⟨5, [⟨1, [⟨1, 1⟩]⟩]⟩ ∧
    (emitChamber c9cfg c4env ⟨5, [⟨1, [⟨1, 1⟩]⟩]⟩).2 = [] :=
  ⟨(C10_structure c9cfg c4env ⟨5, [⟨1, [⟨1, 1⟩]⟩]⟩ ⟨[]⟩ (by norm_num [c9cfg])).1,
   (C10_structure c9cfg c4env ⟨5, [⟨1, [⟨1, 1⟩]⟩]⟩ ⟨[]⟩ (by norm_num [c9cfg])).2.1⟩

end KrAna
